import Mathlib

set_option maxRecDepth 100000

/-!
Shallow embedding of the CarbonCoin (CC) blockchain node
(`src/CarbonCoin-CC-Blockchain_Network`): `transaction/transaction.py`,
`blockchain/block.py`, `blockchain/blockchain.py`, `node/node.py`
(`resolve_conflicts`), `network/app.py` (`receive_block`) and
`storage/storage.py` (`save_blockchain`).

Modelling conventions:
* Python floats (amounts, balances, timestamps) are modelled as `Rat`.
* SHA-256 is replaced by a deterministic, executable stand-in digest
  (`sha256Hex`): every claim under verification depends only on the hash
  being a deterministic function of the serialized fields, never on a
  cryptographic property.
* ECDSA signing/verification is replaced by a deterministic stand-in
  (`Wallet.verify_signature`): a signature verifies exactly when it is the
  unique stand-in signature of the public key and message, and never when
  the key or signature is empty (mirroring `VerifyingKey.from_string` /
  `verify` raising on malformed input and the `except` returning `False`).
* Python dicts keyed by address are modelled as association lists,
  Python sets of tx ids as lists without duplicates.
* The unbounded proof-of-work loop is modelled with explicit fuel
  (`powLoop`); running out of fuel returns the block as-is, which leaves
  every structural property of mining unchanged.
* Methods that mutate `self` become functions `state → result × state`.
-/

/-! ### Configuration constants (`config.py`, defaults with no `.env`) -/

def COINBASE_ADDRESS : String := "COINBASE_SYSTEM"

def MINING_REWARD : Rat := 10

/-- Embeds `config.py` line 55: `MINING_DIFFICULTY = _get_env_int("MINING_DIFFICULTY", 4)`;
with no `.env` override this is `4`. -/
def MINING_DIFFICULTY : Nat := 4

def MAX_TRANSACTIONS_PER_BLOCK : Nat := 1

def TransactionType.COINBASE : String := "coinbase"

def TransactionType.TRANSFER : String := "transfer"

/-! ### Hash stand-in -/

/-- Polynomial string digest accumulator (stand-in core). -/
def strHashNat (s : String) : Nat :=
  s.data.foldl (fun h c => (h * 31 + c.toNat) % 4294967296) 7

/-- Python string slice `s[:n]` (structural form of `String.take`). -/
def strTake (s : String) (n : Nat) : String :=
  String.mk (s.data.take n)

/-- Avalanche mixing so that nearby inputs get unrelated leading digits. -/
def mix32 (h : Nat) : Nat :=
  let a := (h * h + 101) % 4294967296
  (a * a + 101) % 4294967296

def hexDigitChar (n : Nat) : Char :=
  if n < 10 then Char.ofNat (48 + n) else Char.ofNat (87 + n)

def natToHex8 (n : Nat) : String :=
  String.mk ((List.range 8).map (fun i => hexDigitChar ((n / 16 ^ (7 - i)) % 16)))

/-- Deterministic stand-in for `hashlib.sha256(s.encode()).hexdigest()`:
an 8-hex-character digest of the serialized input. -/
def sha256Hex (s : String) : String :=
  natToHex8 (mix32 (strHashNat s))

/-- The string `"0" * d` used by the proof-of-work difficulty checks. -/
def zeros (d : Nat) : String :=
  String.mk (List.replicate d '0')

/-! ### Serialization helpers (stand-in for `json.dumps(..., sort_keys=True)`) -/

def ratRepr (q : Rat) : String :=
  toString q.num ++ "/" ++ toString q.den

def optRatRepr : Option Rat → String
  | none => "None"
  | some q => ratRepr q

def optStrRepr : Option String → String
  | none => "None"
  | some s => s

/-! ### Transaction dictionaries (`tx.to_dict()` / raw JSON payloads) -/

/-- A transaction dictionary as it travels through mempool, blocks and the
network. Missing-key defaults of `dict.get` are represented by `Option`
(for `tx_id`, `timestamp`) and by the conventional defaults `""` / `0`
used at every `get` site (for the remaining fields). -/
structure TxDict where
  sender : String
  receiver : String
  amount : Rat
  signature : String
  tx_type : String
  public_key : String
  timestamp : Option Rat
  tx_id : Option String
deriving Repr, DecidableEq

def txDictSerialize (d : TxDict) : String :=
  "TXD|" ++ d.sender ++ "|" ++ d.receiver ++ "|" ++ ratRepr d.amount ++ "|" ++
    d.signature ++ "|" ++ d.tx_type ++ "|" ++ d.public_key ++ "|" ++
    optRatRepr d.timestamp ++ "|" ++ optStrRepr d.tx_id

/-! ### `transaction/transaction.py` -/

structure Transaction where
  sender : String
  receiver : String
  amount : Rat
  signature : String
  tx_type : String
  public_key : String
  timestamp : Rat
deriving Repr, DecidableEq

/-- Embeds `Transaction.__init__`: `self.timestamp = timestamp or time.time()` —
a missing (`None`) or zero (falsy) timestamp is replaced by the current
time `now`. -/
def Transaction.init (sender receiver : String) (amount : Rat)
    (signature tx_type public_key : String) (timestamp : Option Rat)
    (now : Rat) : Transaction :=
  { sender := sender, receiver := receiver, amount := amount,
    signature := signature, tx_type := tx_type, public_key := public_key,
    timestamp :=
      match timestamp with
      | none => now
      | some t => if t = 0 then now else t }

/-- Serialization of the four fields hashed by `Transaction._python_hash`
(`sender`, `receiver`, `amount`, `timestamp`). -/
def txSerialize (sender receiver : String) (amount timestamp : Rat) : String :=
  "TX|" ++ sender ++ "|" ++ receiver ++ "|" ++ ratRepr amount ++ "|" ++ ratRepr timestamp

/-- Embeds `Transaction.hash` (the digest of the four content fields). -/
def Transaction.hash (t : Transaction) : String :=
  sha256Hex (txSerialize t.sender t.receiver t.amount t.timestamp)

/-- Embeds `Transaction.hash_hex` (bytes vs hex is collapsed in the model). -/
def Transaction.hash_hex (t : Transaction) : String :=
  t.hash

def Transaction.is_coinbase (t : Transaction) : Bool :=
  t.tx_type == TransactionType.COINBASE || t.sender == COINBASE_ADDRESS

/-- The unique stand-in signature of `public_key` over `message_hash`
(what `Wallet.sign` would produce). -/
def signatureFor (public_key message_hash : String) : String :=
  "SIG|" ++ public_key ++ "|" ++ message_hash

/-- Embeds `Wallet.verify_signature`: verification succeeds only for the stand-in
signature of a non-empty key; an empty key or signature makes
`VerifyingKey.from_string` / `bytes.fromhex` / `verify` raise, and the
`except` branch returns `False`. -/
def Wallet.verify_signature (public_key message_hash signature : String) : Bool :=
  public_key != "" && signature != "" && signature == signatureFor public_key message_hash

/-- Embeds `Transaction.is_valid`. -/
def Transaction.is_valid (t : Transaction) : Bool :=
  if t.is_coinbase then decide (t.amount > 0) && t.receiver != ""
  else if t.signature == "" || t.public_key == "" then false
  else if t.amount ≤ 0 then false
  else if t.sender == t.receiver then false
  else Wallet.verify_signature t.public_key t.hash t.signature

/-- Embeds `Transaction.to_dict`: every field plus the content-derived `tx_id`. -/
def Transaction.to_dict (t : Transaction) : TxDict :=
  { sender := t.sender, receiver := t.receiver, amount := t.amount,
    signature := t.signature, tx_type := t.tx_type, public_key := t.public_key,
    timestamp := some t.timestamp, tx_id := some t.hash_hex }

/-- Embeds `Transaction.from_dict` (defaults of `data.get` baked into `TxDict`). -/
def Transaction.from_dict (d : TxDict) (now : Rat) : Transaction :=
  Transaction.init d.sender d.receiver d.amount d.signature d.tx_type
    d.public_key d.timestamp now

/-- Embeds `Transaction.create_coinbase`. -/
def Transaction.create_coinbase (receiver : String) (amount : Rat) (now : Rat) : Transaction :=
  Transaction.init COINBASE_ADDRESS receiver amount "" TransactionType.COINBASE "" none now

/-! ### `blockchain/block.py` -/

structure Block where
  index : Nat
  timestamp : Rat
  data : List TxDict
  previous_hash : String
  nonce : Nat
  hash : String
deriving Repr, DecidableEq

/-- Serialization of the five fields hashed by `Block._python_calculate_hash`. -/
def blockSerialize (index : Nat) (timestamp : Rat) (data : List TxDict)
    (previous_hash : String) (nonce : Nat) : String :=
  "BLK|" ++ toString index ++ "|" ++ ratRepr timestamp ++ "|" ++
    String.join (data.map txDictSerialize) ++ "|" ++ previous_hash ++ "|" ++ toString nonce

def Block.calculate_hash (b : Block) : String :=
  sha256Hex (blockSerialize b.index b.timestamp b.data b.previous_hash b.nonce)

/-- Embeds `Block.__init__`: stores the fields and computes `self.hash`. -/
def Block.init (index : Nat) (timestamp : Rat) (data : List TxDict)
    (previous_hash : String) (nonce : Nat) : Block :=
  { index := index, timestamp := timestamp, data := data,
    previous_hash := previous_hash, nonce := nonce,
    hash := sha256Hex (blockSerialize index timestamp data previous_hash nonce) }

/-- Embeds `GENESIS_BLOCK = Block(index=0, timestamp=0, data=[], previous_hash="0")`. -/
def GENESIS_BLOCK : Block :=
  Block.init 0 0 [] "0" 0

/-! ### `blockchain/blockchain.py` — ledger state and helpers -/

/-- The mutable state of a `Blockchain` object. The `threading.RLock` is
dropped: the model is the sequential semantics of the lock-protected
critical sections. -/
structure Blockchain where
  chain : List Block
  pending_transactions : List TxDict
  difficulty : Nat
  balance_cache : List (String × Rat)
  mined_tx_cache : List String
  cache_chain_length : Nat
deriving Repr, DecidableEq

/-- Embeds `Blockchain.__init__`: genesis chain, empty mempool, hard-coded
difficulty `3`, empty caches, `cache_chain_length = 1`. -/
def Blockchain.init : Blockchain :=
  { chain := [GENESIS_BLOCK], pending_transactions := [], difficulty := 3,
    balance_cache := [], mined_tx_cache := [], cache_chain_length := 1 }

/-- Embeds `chain[-1]`; the chain is never empty (constructed with genesis and
only ever appended to or replaced by a valid, hence non-empty, chain). -/
def Blockchain.get_latest_block (bc : Blockchain) : Block :=
  bc.chain.getLastD GENESIS_BLOCK

/-- Embeds `Blockchain._invalidate_cache`. -/
def Blockchain._invalidate_cache (bc : Blockchain) : Blockchain :=
  { bc with balance_cache := [], mined_tx_cache := [],
            cache_chain_length := bc.chain.length }

/-- Lookup in a balance dictionary: `balances.get(address, default)`. -/
def alistGetD (l : List (String × Rat)) (k : String) (d : Rat) : Rat :=
  match l.find? (fun p => p.1 == k) with
  | some p => p.2
  | none => d

/-- Embeds `balances[k] = balances.get(k, 0.0) + v`. -/
def alistAdd (l : List (String × Rat)) (k : String) (v : Rat) : List (String × Rat) :=
  if l.any (fun p => p.1 == k) then
    l.map (fun p => if p.1 == k then (p.1, p.2 + v) else p)
  else l ++ [(k, v)]

/-- Python truthiness of `tx.get("tx_id")`: present and non-empty. -/
def optStrTruthy : Option String → Bool
  | none => false
  | some s => s != ""

/-- Python `tx.get("tx_id") in ids` for a set of strings: `None` is never a
member. -/
def optIdIn (ids : List String) : Option String → Bool
  | none => false
  | some i => ids.contains i

/-- Balance effect of one transaction dictionary inside
`Blockchain._rebuild_caches`: credit a truthy receiver, debit a truthy
non-coinbase sender. -/
def applyTxBalance (bal : List (String × Rat)) (d : TxDict) : List (String × Rat) :=
  let bal1 := if d.receiver != "" then alistAdd bal d.receiver d.amount else bal
  if d.sender != "" && d.sender != COINBASE_ADDRESS then
    alistAdd bal1 d.sender (-d.amount)
  else bal1

/-- One iteration of the transaction loop in `Blockchain._rebuild_caches`:
skip a transaction whose truthy `tx_id` was already processed, record a
truthy `tx_id`, apply the balance effect. -/
def processTx (acc : List (String × Rat) × List String) (d : TxDict) :
    List (String × Rat) × List String :=
  match d.tx_id with
  | some i =>
    if i != "" && acc.2.contains i then acc
    else (applyTxBalance acc.1 d, if i != "" then acc.2 ++ [i] else acc.2)
  | none => (applyTxBalance acc.1 d, acc.2)

/-- The pure computation performed by `Blockchain._rebuild_caches`: fold the
whole chain into (balance dictionary, mined tx-id set). -/
def rebuildCachesChain (chain : List Block) : List (String × Rat) × List String :=
  chain.foldl (fun acc b => b.data.foldl processTx acc) ([], [])

/-- The balance an address has according to a chain (fresh rebuild). -/
def chainBalance (chain : List Block) (address : String) : Rat :=
  alistGetD (rebuildCachesChain chain).1 address 0

/-- The set of tx ids mined into a chain (fresh rebuild). -/
def chainMinedIds (chain : List Block) : List String :=
  (rebuildCachesChain chain).2

/-- Embeds `Blockchain._rebuild_caches` as a state update. -/
def Blockchain._rebuild_caches (bc : Blockchain) : Blockchain :=
  let r := rebuildCachesChain bc.chain
  { bc with balance_cache := r.1, mined_tx_cache := r.2,
            cache_chain_length := bc.chain.length }

/-- Embeds `Blockchain.get_mined_transaction_ids` (rebuilds when the cache is empty
or was built for a different chain length). -/
def Blockchain.get_mined_transaction_ids (bc : Blockchain) : List String × Blockchain :=
  if bc.mined_tx_cache.isEmpty || bc.cache_chain_length != bc.chain.length then
    let bc2 := bc._rebuild_caches
    (bc2.mined_tx_cache, bc2)
  else (bc.mined_tx_cache, bc)

/-- Embeds `Blockchain.is_transaction_mined`. -/
def Blockchain.is_transaction_mined (bc : Blockchain) (tx_id : String) : Bool × Blockchain :=
  let r := bc.get_mined_transaction_ids
  (r.1.contains tx_id, r.2)

/-- Embeds `Blockchain.get_balance` (rebuilds when the balance cache is empty or was
built for a different chain length). -/
def Blockchain.get_balance (bc : Blockchain) (address : String) : Rat × Blockchain :=
  if bc.balance_cache.isEmpty || bc.cache_chain_length != bc.chain.length then
    let bc2 := bc._rebuild_caches
    (alistGetD bc2.balance_cache address 0, bc2)
  else (alistGetD bc.balance_cache address 0, bc)

/-- Embeds `Blockchain.has_sufficient_balance`. -/
def Blockchain.has_sufficient_balance (bc : Blockchain) (address : String)
    (amount : Rat) : Bool × Blockchain :=
  let r := bc.get_balance address
  (decide (r.1 ≥ amount), r.2)

/-- The failure reasons of `Blockchain.validate_transaction`, one per
reason string returned by the Python code (the insufficient-balance
message carries the two formatted numbers). -/
inductive VError where
  | alreadyMined
  | alreadyPending
  | coinbaseSubmission
  | nonPositiveAmount
  | selfTransfer
  | insufficientBalance (got needed : Rat)
  | invalidSignature
deriving Repr, DecidableEq

/-- Checks (3)-(7) of `Blockchain.validate_transaction`, factored out of the
linear if-chain of the Python method: coinbase submission, positive
amount, self-send, `has_sufficient_balance` + `get_balance` (for the
reported balance), `Transaction.is_valid`. -/
def validateChecks37 (bc1 : Blockchain) (tx : Transaction) : Option VError × Blockchain :=
  if tx.is_coinbase then (some VError.coinbaseSubmission, bc1)
  else if tx.amount ≤ 0 then (some VError.nonPositiveAmount, bc1)
  else if tx.sender == tx.receiver then (some VError.selfTransfer, bc1)
  else
    let hs := bc1.has_sufficient_balance tx.sender tx.amount
    if !hs.1 then
      let gb := hs.2.get_balance tx.sender
      (some (VError.insufficientBalance gb.1 tx.amount), gb.2)
    else if !tx.is_valid then (some VError.invalidSignature, hs.2)
    else (none, hs.2)

/-- Embeds `Blockchain.validate_transaction` (`(False, reason)` becomes
`some reason`, `(True, "")` becomes `none`): the seven short-circuiting
checks in source order, with the same call structure
(`is_transaction_mined`, pending scan, then `validateChecks37`). -/
def Blockchain.validate_transaction (bc : Blockchain) (tx_dict : TxDict)
    (check_chain : Bool) (now : Rat) : Option VError × Blockchain :=
  let tx := Transaction.from_dict tx_dict now
  let step1 : Bool × Blockchain :=
    match tx_dict.tx_id with
    | some i =>
      if check_chain && i != "" then bc.is_transaction_mined i
      else (false, bc)
    | none => (false, bc)
  if step1.1 then (some VError.alreadyMined, step1.2)
  else
    let bc1 := step1.2
    if optStrTruthy tx_dict.tx_id &&
        bc1.pending_transactions.any (fun t => t.tx_id == tx_dict.tx_id) then
      (some VError.alreadyPending, bc1)
    else validateChecks37 bc1 tx

/-- Embeds `Blockchain.cleanup_pending_transactions` (the returned removal count is
dropped; only the state matters to the claims). -/
def Blockchain.cleanup_pending_transactions (bc : Blockchain) : Blockchain :=
  let r := bc.get_mined_transaction_ids
  { r.2 with pending_transactions :=
      r.2.pending_transactions.filter (fun tx => !(optIdIn r.1 tx.tx_id)) }

/-- Embeds `Blockchain._python_proof_of_work`, with explicit fuel for the unbounded
`while`: bump the nonce and recompute the hash until the difficulty
target is met (or the fuel runs out). -/
def powLoop (difficulty : Nat) (fuel : Nat) (b : Block) : Block :=
  match fuel with
  | 0 => b
  | fuel + 1 =>
    if strTake b.hash difficulty == zeros difficulty then b
    else
      let b2 : Block := { b with nonce := b.nonce + 1 }
      powLoop difficulty fuel { b2 with hash := b2.calculate_hash }

/-- Embeds `Blockchain.mine_block`: purge mined tx ids from the mempool, take at
most `MAX_TRANSACTIONS_PER_BLOCK` pending transactions, put the coinbase
first, build the block at the tip, run proof-of-work, append, drop the
included tx ids from the mempool, invalidate the caches. -/
def Blockchain.mine_block (bc : Blockchain) (miner_address : String)
    (now : Rat) (fuel : Nat) : Block × Blockchain :=
  let bc1 := bc.cleanup_pending_transactions
  let r := bc1.get_mined_transaction_ids
  let bc2 := r.2
  let valid_pending := bc2.pending_transactions.filter (fun tx => !(optIdIn r.1 tx.tx_id))
  let transactions_for_block := valid_pending.take MAX_TRANSACTIONS_PER_BLOCK
  let coinbase_tx := Transaction.create_coinbase miner_address MINING_REWARD now
  let block_data := coinbase_tx.to_dict :: transactions_for_block
  let block0 := Block.init bc2.chain.length now block_data bc2.get_latest_block.hash 0
  let block := powLoop bc2.difficulty fuel block0
  let mined_tx_ids := transactions_for_block.map (fun tx => tx.tx_id)
  let bc3 : Blockchain :=
    { bc2 with
      chain := bc2.chain ++ [block],
      pending_transactions :=
        bc2.pending_transactions.filter (fun tx => !(mined_tx_ids.contains tx.tx_id)) }
  (block, bc3._invalidate_cache)

/-- Embeds `Blockchain.add_block`: accept a peer block only when it links to the
tip, its hash recomputes, and it meets the difficulty; otherwise reject
without touching the state. -/
def Blockchain.add_block (bc : Blockchain) (block : Block) : Bool × Blockchain :=
  if block.previous_hash != bc.get_latest_block.hash then (false, bc)
  else if block.hash != block.calculate_hash then (false, bc)
  else if strTake block.hash bc.difficulty != zeros bc.difficulty then (false, bc)
  else (true, ({ bc with chain := bc.chain ++ [block] } : Blockchain)._invalidate_cache)

/-- Embeds `chainLinksOk prev rest`: the loop body of `Blockchain.is_valid_chain`
from index 1 on — each block recomputes its own hash and links to its
predecessor. -/
def chainLinksOk : Block → List Block → Bool
  | _, [] => true
  | prev, cur :: rest =>
    (cur.hash == cur.calculate_hash) && (cur.previous_hash == prev.hash) &&
      chainLinksOk cur rest

/-- Embeds `Blockchain.is_valid_chain` (a static check: `self` is unused in the
Python method). -/
def Blockchain.is_valid_chain (chain : List Block) : Bool :=
  match chain with
  | [] => false
  | first :: rest =>
    if first.hash != GENESIS_BLOCK.hash then false
    else chainLinksOk first rest

/-- Embeds `Blockchain.replace_chain`: longer, valid, and every non-genesis block
meets the difficulty. -/
def Blockchain.replace_chain (bc : Blockchain) (new_chain : List Block) : Bool × Blockchain :=
  if new_chain.length ≤ bc.chain.length then (false, bc)
  else if !(Blockchain.is_valid_chain new_chain) then (false, bc)
  else if !((new_chain.drop 1).all
      (fun b => strTake b.hash bc.difficulty == zeros bc.difficulty)) then (false, bc)
  else (true, ({ bc with chain := new_chain } : Blockchain)._invalidate_cache)

/-! ### `node/node.py` — consensus -/

/-- The peer-scanning loop of `Node.resolve_conflicts`: starting from the
node's own chain length and no candidate, skip any peer chain whose
length does not exceed the running maximum, adopt a longer chain as the
candidate only when `Blockchain.is_valid_chain` accepts it. A peer's
`/chain` response reports `length = len(chain)` (`network/app.py`), so
each offer is modelled by its block list. -/
def scanPeers (acc_len : Nat) (cand : Option (List Block)) :
    List (List Block) → Nat × Option (List Block)
  | [] => (acc_len, cand)
  | c :: rest =>
    if c.length ≤ acc_len then scanPeers acc_len cand rest
    else if Blockchain.is_valid_chain c then scanPeers c.length (some c) rest
    else scanPeers acc_len cand rest

/-- Embeds `Node.resolve_conflicts`: scan all peers, then — if a candidate was
found — install it, invalidate the caches and clean the mempool,
returning whether the chain was replaced. -/
def Node.resolve_conflicts (bc : Blockchain) (offers : List (List Block)) :
    Bool × Blockchain :=
  let scan := scanPeers bc.chain.length none offers
  match scan.2 with
  | some longest =>
    let bc1 := ({ bc with chain := longest } : Blockchain)._invalidate_cache
    (true, bc1.cleanup_pending_transactions)
  | none => (false, bc)

/-! ### `network/app.py` — inbound block endpoint -/

inductive ReceiveOutcome where
  | accepted
  | synced
  | alreadyProcessed
deriving Repr, DecidableEq

/-- The `/receive_block` handler: a block at the next index goes through
`add_block` (followed by a mempool cleanup on success); a block further
ahead triggers `resolve_conflicts` against the peers; anything else — a
stale index or a failed `add_block` — falls through to the
"Block already processed" response. -/
def receive_block (bc : Blockchain) (offers : List (List Block)) (block : Block) :
    ReceiveOutcome × Blockchain :=
  let last := bc.get_latest_block
  if block.index == last.index + 1 then
    let r := bc.add_block block
    if r.1 then (ReceiveOutcome.accepted, r.2.cleanup_pending_transactions)
    else (ReceiveOutcome.alreadyProcessed, r.2)
  else if block.index > last.index + 1 then
    let r := Node.resolve_conflicts bc offers
    (ReceiveOutcome.synced, r.2.cleanup_pending_transactions)
  else (ReceiveOutcome.alreadyProcessed, bc)

/-! ### `storage/storage.py` — blockchain persistence -/

/-- A block dictionary as written by `Storage.save_blockchain`, step 3. -/
structure BlockDict where
  index : Nat
  timestamp : Rat
  data : List TxDict
  previous_hash : String
  nonce : Nat
  hash : String
deriving Repr, DecidableEq

def Block.to_dict_block (b : Block) : BlockDict :=
  { index := b.index, timestamp := b.timestamp, data := b.data,
    previous_hash := b.previous_hash, nonce := b.nonce, hash := b.hash }

/-- Persistent-store state for the blockchain file: the stored chain (if the
file exists and parses) and the current version number tracked by
`_get_version` / `_increment_version`. -/
structure Storage where
  persisted : Option (List BlockDict)
  version : Nat
deriving Repr, DecidableEq

/-- Embeds `Storage.save_blockchain` under the file lock. Step 1: optimistic
version check (`_check_version_match`: a non-zero `expected_version` must
equal the current version). Step 2 (only without `force`, when a stored
chain exists): refuse to shrink — a strictly shorter argument chain is a
no-write success — and skip the write when an equal-length chain has the
same tip hash. Steps 3-5: serialize, write, increment the version. Every
path of the Python loop body returns, so `max_retries` never matters in
the sequential model. -/
def Storage.save_blockchain (st : Storage) (chain : List Block) (force : Bool)
    (expected_version : Nat) : (Bool × Nat) × Storage :=
  if expected_version > 0 && expected_version != st.version then
    ((false, st.version), st)
  else
    let write : (Bool × Nat) × Storage :=
      ((true, st.version + 1),
        { persisted := some (chain.map Block.to_dict_block),
          version := st.version + 1 })
    match st.persisted, force with
    | some existing, false =>
      if chain.length < existing.length then ((true, st.version), st)
      else if chain.length == existing.length then
        match existing.getLast?, chain.getLast? with
        | some e, some c =>
          if e.hash == c.hash then ((true, st.version), st) else write
        | _, _ => write
      else write
    | _, _ => write

/-! ### Specification-side definitions (used to state the claims) -/

/-- The seven ordered checks of `validateTransaction` exactly as the spec
lists them, each phrased directly against the chain (not against the
caches): (1) mined in chain when `check_chain`, (2) duplicate in
mempool, (3) coinbase submission, (4) positive amount, (5) self-send,
(6) sufficient balance, (7) signature verification; first failure wins. -/
def validateSpecChecks37 (chain : List Block) (tx : Transaction) : Option VError :=
  if tx.is_coinbase then some VError.coinbaseSubmission
  else if tx.amount ≤ 0 then some VError.nonPositiveAmount
  else if tx.sender == tx.receiver then some VError.selfTransfer
  else if chainBalance chain tx.sender < tx.amount then
    some (VError.insufficientBalance (chainBalance chain tx.sender) tx.amount)
  else if !(Wallet.verify_signature tx.public_key tx.hash tx.signature) then
    some VError.invalidSignature
  else none

def validateSpec (bc : Blockchain) (d : TxDict) (check_chain : Bool)
    (now : Rat) : Option VError :=
  let tx := Transaction.from_dict d now
  if check_chain && optStrTruthy d.tx_id && optIdIn (chainMinedIds bc.chain) d.tx_id then
    some VError.alreadyMined
  else if optStrTruthy d.tx_id &&
      bc.pending_transactions.any (fun t => t.tx_id == d.tx_id) then
    some VError.alreadyPending
  else validateSpecChecks37 bc.chain tx

/-- A cache state is coherent when each cache is either empty, or built for
a different chain length (both of which force a rebuild before use), or
holds exactly the fresh rebuild of the current chain. Every state the
code can produce satisfies this; it rules out only a cache that was
never produced by `_rebuild_caches`/`_invalidate_cache` for this chain. -/
def Blockchain.cacheCoherent (bc : Blockchain) : Prop :=
  (bc.balance_cache = [] ∨ bc.cache_chain_length ≠ bc.chain.length ∨
    bc.balance_cache = (rebuildCachesChain bc.chain).1) ∧
  (bc.mined_tx_cache = [] ∨ bc.cache_chain_length ≠ bc.chain.length ∨
    bc.mined_tx_cache = (rebuildCachesChain bc.chain).2)

/-! ### Concrete data for witnesses and counterexamples -/

/-- A block over the genesis tip with no transactions whose stand-in hash
meets difficulty 3 (nonce found by search). -/
def goodBlock : Block :=
  Block.init 1 1 [] GENESIS_BLOCK.hash 10168

/-- An unsigned, balance-violating transfer: no signature, no public key,
and `alice` holds no coins on the genesis chain. -/
def badTxD : TxDict :=
  { sender := "alice", receiver := "bob", amount := 5, signature := "",
    tx_type := "transfer", public_key := "", timestamp := some 1,
    tx_id := some "badtx1" }

/-- A block over the genesis tip containing only `badTxD`, with a correctly
recomputing stand-in hash that meets difficulty 3 (nonce found by
search). -/
def badBlock : Block :=
  Block.init 1 1 [badTxD] GENESIS_BLOCK.hash 5222

/-- A store holding a two-block persisted chain at version 3, used to
separate the write guards of `save_blockchain`. -/
def storeCE : Storage :=
  { persisted := some [GENESIS_BLOCK.to_dict_block, goodBlock.to_dict_block],
    version := 3 }

/-! ## Helper lemmas -/

theorem rebuild_caches_chain_eq (bc : Blockchain) :
    bc._rebuild_caches.chain = bc.chain := rfl

theorem rebuild_caches_pending_eq (bc : Blockchain) :
    bc._rebuild_caches.pending_transactions = bc.pending_transactions := rfl

theorem rebuild_caches_difficulty_eq (bc : Blockchain) :
    bc._rebuild_caches.difficulty = bc.difficulty := rfl

theorem rebuild_caches_coherent (bc : Blockchain) :
    bc._rebuild_caches.cacheCoherent := by
  constructor
  · exact Or.inr (Or.inr rfl)
  · exact Or.inr (Or.inr rfl)

theorem invalidate_cache_coherent (bc : Blockchain) :
    bc._invalidate_cache.cacheCoherent := by
  constructor
  · exact Or.inl rfl
  · exact Or.inl rfl

theorem get_mined_fst (bc : Blockchain) (h : bc.cacheCoherent) :
    bc.get_mined_transaction_ids.1 = chainMinedIds bc.chain := by
  unfold Blockchain.get_mined_transaction_ids
  split
  · rfl
  · rename_i hcond
    simp only [Bool.or_eq_true, not_or, Bool.not_eq_true] at hcond
    obtain ⟨h1, h2⟩ := hcond
    rcases h.2 with hc | hc | hc
    · rw [hc] at h1
      simp at h1
    · rw [bne_eq_false_iff_eq] at h2
      exact absurd h2 hc
    · exact hc

theorem get_mined_snd (bc : Blockchain) :
    bc.get_mined_transaction_ids.2 = bc ∨
      bc.get_mined_transaction_ids.2 = bc._rebuild_caches := by
  unfold Blockchain.get_mined_transaction_ids
  split
  · exact Or.inr rfl
  · exact Or.inl rfl

theorem get_mined_snd_chain (bc : Blockchain) :
    bc.get_mined_transaction_ids.2.chain = bc.chain := by
  rcases get_mined_snd bc with h | h <;> rw [h] <;> rfl

theorem get_mined_snd_pending (bc : Blockchain) :
    bc.get_mined_transaction_ids.2.pending_transactions = bc.pending_transactions := by
  rcases get_mined_snd bc with h | h <;> rw [h] <;> rfl

theorem get_mined_snd_difficulty (bc : Blockchain) :
    bc.get_mined_transaction_ids.2.difficulty = bc.difficulty := by
  rcases get_mined_snd bc with h | h <;> rw [h] <;> rfl

theorem get_mined_snd_coherent (bc : Blockchain) (h : bc.cacheCoherent) :
    bc.get_mined_transaction_ids.2.cacheCoherent := by
  rcases get_mined_snd bc with heq | heq <;> rw [heq]
  · exact h
  · exact rebuild_caches_coherent bc

theorem get_balance_fst (bc : Blockchain) (a : String) (h : bc.cacheCoherent) :
    (bc.get_balance a).1 = chainBalance bc.chain a := by
  unfold Blockchain.get_balance
  split
  · rfl
  · rename_i hcond
    simp only [Bool.or_eq_true, not_or, Bool.not_eq_true] at hcond
    obtain ⟨h1, h2⟩ := hcond
    rcases h.1 with hc | hc | hc
    · rw [hc] at h1
      simp at h1
    · rw [bne_eq_false_iff_eq] at h2
      exact absurd h2 hc
    · show alistGetD bc.balance_cache a 0 = chainBalance bc.chain a
      rw [hc]
      rfl

theorem get_balance_snd (bc : Blockchain) (a : String) :
    (bc.get_balance a).2 = bc ∨ (bc.get_balance a).2 = bc._rebuild_caches := by
  unfold Blockchain.get_balance
  split
  · exact Or.inr rfl
  · exact Or.inl rfl

theorem get_balance_snd_chain (bc : Blockchain) (a : String) :
    (bc.get_balance a).2.chain = bc.chain := by
  rcases get_balance_snd bc a with h | h <;> rw [h] <;> rfl

theorem get_balance_snd_coherent (bc : Blockchain) (a : String) (h : bc.cacheCoherent) :
    (bc.get_balance a).2.cacheCoherent := by
  rcases get_balance_snd bc a with heq | heq <;> rw [heq]
  · exact h
  · exact rebuild_caches_coherent bc

theorem has_sufficient_fst (bc : Blockchain) (a : String) (amt : Rat)
    (h : bc.cacheCoherent) :
    (bc.has_sufficient_balance a amt).1 = decide (chainBalance bc.chain a ≥ amt) := by
  show decide ((bc.get_balance a).1 ≥ amt) = decide (chainBalance bc.chain a ≥ amt)
  rw [get_balance_fst bc a h]

theorem powLoop_index (d fuel : Nat) (b : Block) :
    (powLoop d fuel b).index = b.index := by
  induction fuel generalizing b with
  | zero => rfl
  | succ n ih =>
    unfold powLoop
    split
    · rfl
    · rw [ih]

theorem powLoop_data (d fuel : Nat) (b : Block) :
    (powLoop d fuel b).data = b.data := by
  induction fuel generalizing b with
  | zero => rfl
  | succ n ih =>
    unfold powLoop
    split
    · rfl
    · rw [ih]

theorem powLoop_previous_hash (d fuel : Nat) (b : Block) :
    (powLoop d fuel b).previous_hash = b.previous_hash := by
  induction fuel generalizing b with
  | zero => rfl
  | succ n ih =>
    unfold powLoop
    split
    · rfl
    · rw [ih]

theorem powLoop_timestamp (d fuel : Nat) (b : Block) :
    (powLoop d fuel b).timestamp = b.timestamp := by
  induction fuel generalizing b with
  | zero => rfl
  | succ n ih =>
    unfold powLoop
    split
    · rfl
    · rw [ih]

theorem cleanup_difficulty (bc : Blockchain) :
    bc.cleanup_pending_transactions.difficulty = bc.difficulty := by
  show bc.get_mined_transaction_ids.2.difficulty = bc.difficulty
  exact get_mined_snd_difficulty bc

theorem mine_block_difficulty (bc : Blockchain) (m : String) (now : Rat) (fuel : Nat) :
    (bc.mine_block m now fuel).2.difficulty = bc.difficulty := by
  show bc.cleanup_pending_transactions.get_mined_transaction_ids.2.difficulty = bc.difficulty
  rw [get_mined_snd_difficulty, cleanup_difficulty]

theorem add_block_difficulty (bc : Blockchain) (b : Block) :
    (bc.add_block b).2.difficulty = bc.difficulty := by
  unfold Blockchain.add_block
  split_ifs <;> rfl

theorem replace_chain_difficulty (bc : Blockchain) (nc : List Block) :
    (bc.replace_chain nc).2.difficulty = bc.difficulty := by
  unfold Blockchain.replace_chain
  split_ifs <;> rfl

theorem resolve_conflicts_difficulty (bc : Blockchain) (offers : List (List Block)) :
    (Node.resolve_conflicts bc offers).2.difficulty = bc.difficulty := by
  have hgen : ∀ o : Option (List Block),
      ((match o with
        | some longest =>
          (true,
            (({ bc with chain := longest } : Blockchain)._invalidate_cache).cleanup_pending_transactions)
        | none => (false, bc) : Bool × Blockchain)).2.difficulty = bc.difficulty := by
    intro o
    cases o with
    | none => rfl
    | some longest =>
      show (({ bc with chain := longest } : Blockchain)._invalidate_cache).cleanup_pending_transactions.difficulty
        = bc.difficulty
      rw [cleanup_difficulty]
      rfl
  exact hgen (scanPeers bc.chain.length none offers).2

theorem add_block_pow_of_accepted (bc : Blockchain) (b : Block)
    (h : (bc.add_block b).1 = true) :
    strTake b.hash bc.difficulty = zeros bc.difficulty := by
  unfold Blockchain.add_block at h
  split_ifs at h with h1 h2 h3
  simpa [bne] using h3

theorem replace_chain_pow_of_accepted (bc : Blockchain) (nc : List Block)
    (h : (bc.replace_chain nc).1 = true) :
    ∀ blk ∈ nc.drop 1, strTake blk.hash bc.difficulty = zeros bc.difficulty := by
  unfold Blockchain.replace_chain at h
  split_ifs at h with h1 h2 h3
  intro blk hblk
  simp only [Bool.not_eq_true, Bool.not_eq_false', List.all_eq_true, beq_iff_eq] at h3
  exact h3 blk hblk

theorem init_timestamp_ne_zero (sender receiver signature tx_type public_key : String)
    (amount : Rat) (timestamp : Option Rat) (now : Rat) (h : 0 < now) :
    (Transaction.init sender receiver amount signature tx_type public_key
      timestamp now).timestamp ≠ 0 := by
  unfold Transaction.init
  cases timestamp with
  | none => exact ne_of_gt h
  | some t =>
    by_cases ht : t = 0
    · simpa [ht] using ne_of_gt h
    · simpa [ht] using ht

theorem from_dict_to_dict_eq (tx : Transaction) (now2 : Rat) (h : tx.timestamp ≠ 0) :
    Transaction.from_dict tx.to_dict now2 = tx := by
  cases tx with
  | mk s r a sig ty pk ts =>
    simp only [Transaction.to_dict, Transaction.from_dict, Transaction.init] at *
    rw [if_neg h]

/-! ## Claim theorems -/

/-- C3: `add_block(b)` returns `true` exactly when `b.previous_hash` matches
the current tip hash, `b.hash` recomputes, and `b.hash` starts with
`difficulty` zero characters; on acceptance it appends `b` and clears the
balance/mined caches, and on rejection it returns the state — chain,
mempool and caches — unchanged. The model is a total function, which is
the no-exception guarantee for bad blocks. -/
theorem add_block_spec (bc : Blockchain) (b : Block) :
    ((bc.add_block b).1 = true ↔
      (b.previous_hash = bc.get_latest_block.hash ∧ b.hash = b.calculate_hash ∧
        strTake b.hash bc.difficulty = zeros bc.difficulty)) ∧
    ((bc.add_block b).1 = true →
      (bc.add_block b).2 =
        { bc with
          chain := bc.chain ++ [b], balance_cache := [], mined_tx_cache := [],
          cache_chain_length := bc.chain.length + 1 }) ∧
    ((bc.add_block b).1 = false → (bc.add_block b).2 = bc) := by
  refine ⟨?_, ?_, ?_⟩
  · unfold Blockchain.add_block
    split_ifs with h1 h2 h3
    · simp only [bne_iff_ne] at h1
      simp [h1]
    · simp only [bne_iff_ne] at h2
      simp [h2]
    · simp only [bne_iff_ne] at h3
      simp [h3]
    · simp only [bne_iff_ne, not_ne_iff] at h1 h2 h3
      rw [h2] at h3
      simp [h1, h2, h3]
  · intro hacc
    unfold Blockchain.add_block at hacc ⊢
    split_ifs at hacc ⊢
    unfold Blockchain._invalidate_cache
    simp [List.length_append]
  · intro hrej
    unfold Blockchain.add_block at hrej ⊢
    split_ifs at hrej ⊢
    all_goals rfl

/-- Witness for C3: the concrete block `goodBlock` is accepted on the genesis
chain and the state is exactly the appended, cache-cleared one. -/
theorem add_block_spec_witness :
    (Blockchain.init.add_block goodBlock).2 =
      { Blockchain.init with
        chain := Blockchain.init.chain ++ [goodBlock], balance_cache := [],
        mined_tx_cache := [], cache_chain_length := Blockchain.init.chain.length + 1 } :=
  (add_block_spec Blockchain.init goodBlock).2.1 (by decide)

/-- C9 (counterexample): the difficulty the `Blockchain` enforces is the
hard-coded `3` from `Blockchain.__init__`, which differs from the
configured `MINING_DIFFICULTY` (default `4`) — the configuration value is
never read by the `Blockchain` class. -/
theorem mining_difficulty_not_from_config :
    Blockchain.init.difficulty = 3 ∧ MINING_DIFFICULTY = 4 ∧
    Blockchain.init.difficulty ≠ MINING_DIFFICULTY := by
  decide

/-- C9 (amended): the proof-of-work difficulty enforced by mining,
`add_block` and `replace_chain` is the hard-coded constant `3` set in
`Blockchain.__init__` — the same fixed integer for every operation during
a run (no operation ever changes it), and both acceptance paths enforce
exactly that many leading zero characters. -/
theorem difficulty_hardcoded_spec (bc : Blockchain) (b : Block) (nc : List Block)
    (m : String) (now : Rat) (fuel : Nat) (offers : List (List Block)) :
    Blockchain.init.difficulty = 3 ∧
    (bc.add_block b).2.difficulty = bc.difficulty ∧
    (bc.mine_block m now fuel).2.difficulty = bc.difficulty ∧
    (bc.replace_chain nc).2.difficulty = bc.difficulty ∧
    (Node.resolve_conflicts bc offers).2.difficulty = bc.difficulty ∧
    ((bc.add_block b).1 = true → strTake b.hash bc.difficulty = zeros bc.difficulty) ∧
    ((bc.replace_chain nc).1 = true →
      ∀ blk ∈ nc.drop 1, strTake blk.hash bc.difficulty = zeros bc.difficulty) :=
  ⟨rfl, add_block_difficulty bc b, mine_block_difficulty bc m now fuel,
    replace_chain_difficulty bc nc, resolve_conflicts_difficulty bc offers,
    add_block_pow_of_accepted bc b, replace_chain_pow_of_accepted bc nc⟩

/-- Witness for C9 (amended): the accepted concrete block `goodBlock` does
start with `difficulty` zeros at the hard-coded difficulty. -/
theorem difficulty_hardcoded_spec_witness :
    strTake goodBlock.hash Blockchain.init.difficulty = zeros Blockchain.init.difficulty :=
  (difficulty_hardcoded_spec Blockchain.init goodBlock [] "m" 1 0 []).2.2.2.2.2.1 (by decide)

/-- C6: decoding `tx.to_dict()` with `from_dict` reproduces a transaction
whose `hash_hex` equals the original `tx_id` stored in the dictionary —
for every transaction built by `Transaction.__init__` at a positive
clock (Python guarantees `time.time() > 0`, so a constructed transaction
never carries the falsy timestamp `0` that `__init__` would replace). -/
theorem tx_roundtrip (sender receiver signature tx_type public_key : String)
    (amount : Rat) (timestamp : Option Rat) (now now2 : Rat) (h : 0 < now) :
    (Transaction.from_dict
        ((Transaction.init sender receiver amount signature tx_type public_key
          timestamp now).to_dict) now2).hash_hex
      = (Transaction.init sender receiver amount signature tx_type public_key
          timestamp now).hash_hex ∧
    (Transaction.init sender receiver amount signature tx_type public_key
        timestamp now).to_dict.tx_id
      = some ((Transaction.init sender receiver amount signature tx_type public_key
          timestamp now).hash_hex) := by
  constructor
  · rw [from_dict_to_dict_eq
      (Transaction.init sender receiver amount signature tx_type public_key timestamp now)
      now2
      (init_timestamp_ne_zero sender receiver signature tx_type public_key amount
        timestamp now h)]
  · rfl

/-- Witness for C6 at a concrete transaction and clock. -/
theorem tx_roundtrip_witness :
    (Transaction.from_dict
        ((Transaction.init "a" "b" 5 "s" "transfer" "k" none 1).to_dict) 2).hash_hex
      = (Transaction.init "a" "b" 5 "s" "transfer" "k" none 1).hash_hex :=
  (tx_roundtrip "a" "b" "s" "transfer" "k" 5 none 1 2 (by decide)).1

theorem chainLinksOk_iff (first : Block) (rest : List Block) :
    chainLinksOk first rest = true ↔
      ∀ i, i + 1 < (first :: rest).length →
        (((first :: rest).getD (i+1) GENESIS_BLOCK).previous_hash
            = ((first :: rest).getD i GENESIS_BLOCK).hash ∧
          ((first :: rest).getD (i+1) GENESIS_BLOCK).hash
            = ((first :: rest).getD (i+1) GENESIS_BLOCK).calculate_hash) := by
  induction rest generalizing first with
  | nil => simp [chainLinksOk]
  | cons b t ih =>
    constructor
    · intro h i hi
      unfold chainLinksOk at h
      simp only [Bool.and_eq_true, beq_iff_eq] at h
      obtain ⟨⟨hrec, hlink⟩, hrest⟩ := h
      cases i with
      | zero => simpa using ⟨hlink, hrec⟩
      | succ j =>
        have hj : j + 1 < (b :: t).length := by
          simp only [List.length_cons] at hi ⊢
          omega
        have hx := (ih b).mp hrest j hj
        simpa [List.getD_cons_succ] using hx
    · intro h
      unfold chainLinksOk
      simp only [Bool.and_eq_true, beq_iff_eq]
      have h0 := h 0 (by simp)
      refine ⟨⟨?_, ?_⟩, ?_⟩
      · simpa using h0.2
      · simpa using h0.1
      · apply (ih b).mpr
        intro j hj
        have hj2 : (j + 1) + 1 < (first :: b :: t).length := by
          simp only [List.length_cons] at hj ⊢
          omega
        have hx := h (j+1) hj2
        simpa [List.getD_cons_succ] using hx

/-- C5: `is_valid_chain` accepts a chain exactly when it is non-empty, its
first block carries the fixed genesis hash, and from index 1 on every
block links to its predecessor and recomputes its own stored hash. -/
theorem is_valid_chain_iff (c : List Block) :
    Blockchain.is_valid_chain c = true ↔
      (c ≠ [] ∧ (c.getD 0 GENESIS_BLOCK).hash = GENESIS_BLOCK.hash ∧
        ∀ i, i + 1 < c.length →
          ((c.getD (i+1) GENESIS_BLOCK).previous_hash = (c.getD i GENESIS_BLOCK).hash ∧
            (c.getD (i+1) GENESIS_BLOCK).hash = (c.getD (i+1) GENESIS_BLOCK).calculate_hash)) := by
  cases c with
  | nil => simp [Blockchain.is_valid_chain]
  | cons first rest =>
    rw [show Blockchain.is_valid_chain (first :: rest)
        = (if first.hash != GENESIS_BLOCK.hash then false else chainLinksOk first rest)
      from rfl]
    split_ifs with h1
    · simp only [bne_iff_ne] at h1
      constructor
      · intro hfalse
        exact absurd hfalse (by simp)
      · intro hr
        exact absurd (by simpa using hr.2.1) h1
    · simp only [bne_iff_ne, not_ne_iff] at h1
      rw [chainLinksOk_iff]
      constructor
      · intro h
        exact ⟨by simp, by simpa using h1, h⟩
      · intro h
        exact h.2.2

/-- Witness for C5: the two-block chain `[GENESIS_BLOCK, goodBlock]` is
accepted, so its head carries the genesis hash. -/
theorem is_valid_chain_iff_witness :
    (([GENESIS_BLOCK, goodBlock] : List Block).getD 0 GENESIS_BLOCK).hash
      = GENESIS_BLOCK.hash :=
  ((is_valid_chain_iff [GENESIS_BLOCK, goodBlock]).mp (by decide)).2.1

theorem is_mined_fst (bc : Blockchain) (i : String) (h : bc.cacheCoherent) :
    (bc.is_transaction_mined i).1 = (chainMinedIds bc.chain).contains i := by
  show bc.get_mined_transaction_ids.1.contains i = _
  rw [get_mined_fst bc h]

theorem mine_block_coherent (bc : Blockchain) (m : String) (now : Rat) (fuel : Nat) :
    (bc.mine_block m now fuel).2.cacheCoherent :=
  ⟨Or.inl rfl, Or.inl rfl⟩

theorem replace_chain_state_of_accepted (bc : Blockchain) (nc : List Block)
    (h : (bc.replace_chain nc).1 = true) :
    (bc.replace_chain nc).2 = ({ bc with chain := nc } : Blockchain)._invalidate_cache := by
  unfold Blockchain.replace_chain at h ⊢
  split_ifs at h ⊢
  rfl

/-- C10: immediately after a successful chain mutation — `mine_block`,
an accepted `add_block`, or an accepted `replace_chain` — the next
`get_balance` returns the balance rebuilt from the new chain and the next
`is_transaction_mined` consults the mined-id set rebuilt from the new
chain: the mutation cleared the caches, and an empty cache forces a full
rebuild before the lookup, so no stale value is observable. -/
theorem cache_coherent_after_mutation (bc : Blockchain) (m : String) (now : Rat)
    (fuel : Nat) (b : Block) (nc : List Block) (a i : String) :
    (((bc.mine_block m now fuel).2.get_balance a).1
        = chainBalance (bc.mine_block m now fuel).2.chain a) ∧
    (((bc.mine_block m now fuel).2.is_transaction_mined i).1
        = (chainMinedIds (bc.mine_block m now fuel).2.chain).contains i) ∧
    ((bc.add_block b).1 = true →
      (((bc.add_block b).2.get_balance a).1 = chainBalance (bc.add_block b).2.chain a ∧
        ((bc.add_block b).2.is_transaction_mined i).1
          = (chainMinedIds (bc.add_block b).2.chain).contains i)) ∧
    ((bc.replace_chain nc).1 = true →
      (((bc.replace_chain nc).2.get_balance a).1
          = chainBalance (bc.replace_chain nc).2.chain a ∧
        ((bc.replace_chain nc).2.is_transaction_mined i).1
          = (chainMinedIds (bc.replace_chain nc).2.chain).contains i)) := by
  refine ⟨?_, ?_, ?_, ?_⟩
  · exact get_balance_fst _ a (mine_block_coherent bc m now fuel)
  · exact is_mined_fst _ i (mine_block_coherent bc m now fuel)
  · intro hacc
    rw [(add_block_spec bc b).2.1 hacc]
    exact ⟨get_balance_fst _ a ⟨Or.inl rfl, Or.inl rfl⟩,
      is_mined_fst _ i ⟨Or.inl rfl, Or.inl rfl⟩⟩
  · intro hacc
    rw [replace_chain_state_of_accepted bc nc hacc]
    exact ⟨get_balance_fst _ a (invalidate_cache_coherent _),
      is_mined_fst _ i (invalidate_cache_coherent _)⟩

/-- Witness for C10 at the concrete accepted block `goodBlock`. -/
theorem cache_coherent_after_mutation_witness :
    ((Blockchain.init.add_block goodBlock).2.get_balance "alice").1
      = chainBalance (Blockchain.init.add_block goodBlock).2.chain "alice" ∧
    ((Blockchain.init.add_block goodBlock).2.is_transaction_mined "badtx1").1
      = (chainMinedIds (Blockchain.init.add_block goodBlock).2.chain).contains "badtx1" :=
  (cache_coherent_after_mutation Blockchain.init "m" 1 0 goodBlock [] "alice"
    "badtx1").2.2.1 (by decide)

/-- C8 (counterexample): the inbound block path admits `badBlock`: its only
transaction is unsigned (empty signature and public key, so
`Transaction.is_valid` fails) and balance-violating (the sender holds 0
on the genesis chain), yet `receive_block`/`add_block` accept the block
because linkage, hash recomputation and proof-of-work all pass. -/
theorem receive_block_admits_invalid_tx :
    badTxD.signature = "" ∧
    (Transaction.from_dict badTxD 1).is_valid = false ∧
    chainBalance Blockchain.init.chain badTxD.sender < badTxD.amount ∧
    badBlock.data = [badTxD] ∧
    (receive_block Blockchain.init [] badBlock).1 = ReceiveOutcome.accepted ∧
    (receive_block Blockchain.init [] badBlock).2.chain = [GENESIS_BLOCK, badBlock] :=
  ⟨rfl, by decide, by decide, rfl, by decide, by decide⟩

/-- C8 (amended): every inbound next-index block is independently
re-validated for previous-hash linkage, stored-hash recomputation and
proof-of-work — and for nothing else: acceptance is equivalent to those
three structural checks, independent of the signature or balance validity
of the transactions the block contains. -/
theorem receive_block_structural_only (bc : Blockchain) (offers : List (List Block))
    (b : Block) (h : b.index = bc.get_latest_block.index + 1) :
    ((receive_block bc offers b).1 = ReceiveOutcome.accepted ↔
      (b.previous_hash = bc.get_latest_block.hash ∧ b.hash = b.calculate_hash ∧
        strTake b.hash bc.difficulty = zeros bc.difficulty)) := by
  unfold receive_block
  rw [if_pos ((beq_iff_eq).mpr h)]
  constructor
  · intro hacc2
    by_cases hr : (bc.add_block b).1 = true
    · exact (add_block_spec bc b).1.mp hr
    · rw [Bool.not_eq_true] at hr
      simp only [hr, Bool.false_eq_true, if_false] at hacc2
      exact absurd hacc2 (by simp)
  · intro hc
    have htrue := (add_block_spec bc b).1.mpr hc
    simp [htrue]

/-- Witness for C8 (amended) at the concrete block `goodBlock` over the
genesis chain. -/
theorem receive_block_structural_only_witness :
    (receive_block Blockchain.init [] goodBlock).1 = ReceiveOutcome.accepted ↔
      (goodBlock.previous_hash = Blockchain.init.get_latest_block.hash ∧
        goodBlock.hash = goodBlock.calculate_hash ∧
        strTake goodBlock.hash Blockchain.init.difficulty = zeros Blockchain.init.difficulty) :=
  receive_block_structural_only Blockchain.init [] goodBlock (by decide)

theorem cleanup_chain (bc : Blockchain) :
    bc.cleanup_pending_transactions.chain = bc.chain := by
  show bc.get_mined_transaction_ids.2.chain = bc.chain
  exact get_mined_snd_chain bc

theorem scanPeers_le (offers : List (List Block)) :
    ∀ acc_len cand, acc_len ≤ (scanPeers acc_len cand offers).1 := by
  induction offers with
  | nil =>
    intro a cand
    exact le_refl a
  | cons c rest ih =>
    intro a cand
    unfold scanPeers
    split_ifs with h1 h2
    · exact ih a cand
    · exact le_trans (le_of_lt (not_le.mp h1)) (ih c.length (some c))
    · exact ih a cand

theorem scanPeers_max (offers : List (List Block)) :
    ∀ acc_len cand d, d ∈ offers → Blockchain.is_valid_chain d = true →
      d.length ≤ (scanPeers acc_len cand offers).1 := by
  induction offers with
  | nil =>
    intro a cand d hd _
    cases hd
  | cons c rest ih =>
    intro a cand d hd hvalid
    unfold scanPeers
    split_ifs with h1 h2
    · rcases List.mem_cons.mp hd with rfl | hmem
      · exact le_trans h1 (scanPeers_le rest a cand)
      · exact ih a cand d hmem hvalid
    · rcases List.mem_cons.mp hd with rfl | hmem
      · exact scanPeers_le rest d.length (some d)
      · exact ih c.length (some c) d hmem hvalid
    · rcases List.mem_cons.mp hd with rfl | hmem
      · exact absurd hvalid h2
      · exact ih a cand d hmem hvalid

theorem scanPeers_cand (offers : List (List Block)) :
    ∀ acc_len cand,
      ((scanPeers acc_len cand offers).1 = acc_len ∧
        (scanPeers acc_len cand offers).2 = cand) ∨
      (∃ c, c ∈ offers ∧ (scanPeers acc_len cand offers).2 = some c ∧
        Blockchain.is_valid_chain c = true ∧ acc_len < c.length ∧
        (scanPeers acc_len cand offers).1 = c.length) := by
  induction offers with
  | nil =>
    intro a cand
    exact Or.inl ⟨rfl, rfl⟩
  | cons c rest ih =>
    intro a cand
    unfold scanPeers
    split_ifs with h1 h2
    · rcases ih a cand with h | ⟨c', hmem, hc2, hc3, hc4, hc5⟩
      · exact Or.inl h
      · exact Or.inr ⟨c', List.mem_cons_of_mem c hmem, hc2, hc3, hc4, hc5⟩
    · rcases ih c.length (some c) with ⟨hl, hc⟩ | ⟨c', hmem, hc2, hc3, hc4, hc5⟩
      · exact Or.inr ⟨c, List.mem_cons_self c rest, hc, h2, not_le.mp h1, hl⟩
      · exact Or.inr ⟨c', List.mem_cons_of_mem c hmem, hc2, hc3,
          lt_trans (not_le.mp h1) hc4, hc5⟩
    · rcases ih a cand with h | ⟨c', hmem, hc2, hc3, hc4, hc5⟩
      · exact Or.inl h
      · exact Or.inr ⟨c', List.mem_cons_of_mem c hmem, hc2, hc3, hc4, hc5⟩

theorem resolve_conflicts_eq (bc : Blockchain) (offers : List (List Block)) :
    Node.resolve_conflicts bc offers =
      (match (scanPeers bc.chain.length none offers).2 with
        | some longest =>
          (true,
            (({ bc with chain := longest } : Blockchain)._invalidate_cache).cleanup_pending_transactions)
        | none => (false, bc)) := rfl

/-- C2: `resolve_conflicts` is longest-valid-chain consensus — it returns
`false` and leaves the state untouched exactly when no offered chain is
both valid and strictly longer than the node's own; when it returns
`true` the installed chain is an offered chain that is valid, strictly
longer than the node's own, and at least as long as every valid offered
chain (so an equal-length peer chain never replaces the current one). -/
theorem resolve_conflicts_spec (bc : Blockchain) (offers : List (List Block)) :
    ((Node.resolve_conflicts bc offers).1 = false →
      (Node.resolve_conflicts bc offers).2 = bc) ∧
    ((Node.resolve_conflicts bc offers).1 = false ↔
      ∀ c ∈ offers, Blockchain.is_valid_chain c = true → c.length ≤ bc.chain.length) ∧
    ((Node.resolve_conflicts bc offers).1 = true →
      ∃ c ∈ offers, (Node.resolve_conflicts bc offers).2.chain = c ∧
        Blockchain.is_valid_chain c = true ∧ bc.chain.length < c.length ∧
        ∀ d ∈ offers, Blockchain.is_valid_chain d = true → d.length ≤ c.length) := by
  rcases scanPeers_cand offers bc.chain.length none with ⟨hl, hc⟩ |
    ⟨c, hmem, hc2, hc3, hc4, hc5⟩
  · rw [resolve_conflicts_eq, hc]
    refine ⟨fun _ => rfl, ?_, ?_⟩
    · constructor
      · intro _ d hd hdv
        have := scanPeers_max offers bc.chain.length none d hd hdv
        rw [hl] at this
        exact this
      · intro _
        rfl
    · intro hfalse
      exact absurd hfalse (by simp)
  · rw [resolve_conflicts_eq, hc2]
    refine ⟨?_, ?_, ?_⟩
    · intro hfalse
      exact absurd hfalse (by simp)
    · constructor
      · intro hfalse
        exact absurd hfalse (by simp)
      · intro hall
        have := hall c hmem hc3
        omega
    · intro _
      refine ⟨c, hmem, ?_, hc3, hc4, ?_⟩
      · rw [cleanup_chain]
        rfl
      · intro d hd hdv
        have := scanPeers_max offers bc.chain.length none d hd hdv
        rw [hc5] at this
        exact this

/-- Witness for C2: a valid two-block peer chain replaces the genesis-only
chain and is maximal among the (single) valid offers. -/
theorem resolve_conflicts_spec_witness :
    ∃ c ∈ [[GENESIS_BLOCK, goodBlock]],
      (Node.resolve_conflicts Blockchain.init [[GENESIS_BLOCK, goodBlock]]).2.chain = c ∧
      Blockchain.is_valid_chain c = true ∧ Blockchain.init.chain.length < c.length ∧
      ∀ d ∈ [[GENESIS_BLOCK, goodBlock]],
        Blockchain.is_valid_chain d = true → d.length ≤ c.length :=
  (resolve_conflicts_spec Blockchain.init [[GENESIS_BLOCK, goodBlock]]).2.2 (by decide)

/-- C7 (counterexample): with a persisted 2-block chain at version 3, saving
a 1-block chain with `force = false` and a stale non-zero
`expected_version = 5` returns failure (with the current version) rather
than the no-write success the claim promises for every shorter-than-
persisted call — the optimistic version check runs before the shrink
guard. -/
theorem save_blockchain_version_before_shrink :
    (storeCE.persisted.getD []).length = 2 ∧
    ([GENESIS_BLOCK] : List Block).length = 1 ∧
    (storeCE.save_blockchain [GENESIS_BLOCK] false 5).1 = (false, 3) ∧
    (storeCE.save_blockchain [GENESIS_BLOCK] false 5).2 = storeCE :=
  ⟨rfl, rfl, by decide, by decide⟩

/-- C7 (amended): `save_blockchain` first applies the optimistic version
check — a non-zero `expected_version` differing from the stored version
fails with the current version and writes nothing; when the version check
passes (`expected_version` zero or matching), a `force = false` call
against a strictly longer persisted chain is a no-write success (the
persisted chain never shrinks), an equal-length call with the same tip
hash is a no-op success, and otherwise — nothing persisted yet, a
strictly longer argument chain, or `force` — the save writes the chain
and increments the stored version. -/
theorem save_blockchain_spec (st : Storage) (chain : List Block) (force : Bool)
    (ev : Nat) :
    (ev > 0 → ev ≠ st.version →
      st.save_blockchain chain force ev = ((false, st.version), st)) ∧
    ((ev = 0 ∨ ev = st.version) →
      ((∀ ex, st.persisted = some ex → force = false → chain.length < ex.length →
          st.save_blockchain chain force ev = ((true, st.version), st)) ∧
        (∀ ex e c, st.persisted = some ex → force = false → chain.length = ex.length →
          ex.getLast? = some e → chain.getLast? = some c → e.hash = c.hash →
          st.save_blockchain chain force ev = ((true, st.version), st)) ∧
        (st.persisted = none →
          st.save_blockchain chain force ev =
            ((true, st.version + 1),
              { persisted := some (chain.map Block.to_dict_block),
                version := st.version + 1 })) ∧
        (∀ ex, st.persisted = some ex → ex.length < chain.length →
          st.save_blockchain chain force ev =
            ((true, st.version + 1),
              { persisted := some (chain.map Block.to_dict_block),
                version := st.version + 1 })) ∧
        (force = true →
          st.save_blockchain chain force ev =
            ((true, st.version + 1),
              { persisted := some (chain.map Block.to_dict_block),
                version := st.version + 1 })))) := by
  obtain ⟨p, v⟩ := st
  constructor
  · intro h1 h2
    have hct : (decide (ev > 0) && (ev != (Storage.mk p v).version)) = true := by
      simp only [Bool.and_eq_true, decide_eq_true_eq, bne_iff_ne]
      exact ⟨h1, h2⟩
    unfold Storage.save_blockchain
    rw [if_pos hct]
  · intro hv
    have hcond : (decide (ev > 0) && (ev != (Storage.mk p v).version)) = false := by
      rcases hv with rfl | rfl
      · simp
      · simp
    refine ⟨?_, ?_, ?_, ?_, ?_⟩
    · intro ex hp hf hlen
      subst hp
      subst hf
      unfold Storage.save_blockchain
      simp only [hcond, Bool.false_eq_true, if_false]
      simp [hlen]
    · intro ex e c hp hf hleq hgl hgc hhash
      subst hp
      subst hf
      unfold Storage.save_blockchain
      simp only [hcond, Bool.false_eq_true, if_false]
      simp [hleq, hgl, hgc, hhash]
    · intro hp
      subst hp
      unfold Storage.save_blockchain
      simp only [hcond, Bool.false_eq_true, if_false]
    · intro ex hp hlen
      subst hp
      unfold Storage.save_blockchain
      simp only [hcond, Bool.false_eq_true, if_false]
      cases force
      · simp [Nat.not_lt_of_lt hlen, Nat.ne_of_gt hlen]
      · rfl
    · intro hf
      subst hf
      unfold Storage.save_blockchain
      simp only [hcond, Bool.false_eq_true, if_false]

/-- Witness for C7 (amended): the shrink guard fires on the concrete store
when the version matches. -/
theorem save_blockchain_spec_witness :
    storeCE.save_blockchain [GENESIS_BLOCK] false 3 = ((true, 3), storeCE) :=
  ((save_blockchain_spec storeCE [GENESIS_BLOCK] false 3).2 (Or.inr rfl)).1
    [GENESIS_BLOCK.to_dict_block, goodBlock.to_dict_block] rfl rfl (by decide)

theorem is_valid_eq_verify (t : Transaction) (hc : t.is_coinbase = false)
    (ha : ¬(t.amount ≤ 0)) (hs : (t.sender == t.receiver) = false) :
    t.is_valid = Wallet.verify_signature t.public_key t.hash t.signature := by
  unfold Transaction.is_valid
  simp only [hc, Bool.false_eq_true, if_false]
  by_cases hsig : (t.signature == "" || t.public_key == "") = true
  · rw [if_pos hsig]
    unfold Wallet.verify_signature
    rcases (show t.signature = "" ∨ t.public_key = "" by simpa using hsig) with h | h
    · simp [h]
    · simp [h]
  · rw [if_neg hsig, if_neg ha, if_neg (by simp [hs])]

theorem validateChecks37_fst (bc1 : Blockchain) (tx : Transaction)
    (hco : bc1.cacheCoherent) :
    (validateChecks37 bc1 tx).1 = validateSpecChecks37 bc1.chain tx := by
  unfold validateChecks37 validateSpecChecks37
  by_cases hcb : tx.is_coinbase = true
  · simp [hcb]
  · rw [Bool.not_eq_true] at hcb
    simp only [hcb, Bool.false_eq_true, if_false]
    by_cases ha : tx.amount ≤ 0
    · simp [ha]
    · simp only [ha, if_false]
      by_cases hsr : (tx.sender == tx.receiver) = true
      · simp [hsr]
      · rw [Bool.not_eq_true] at hsr
        simp only [hsr, Bool.false_eq_true, if_false]
        have hhs : (bc1.has_sufficient_balance tx.sender tx.amount).1
            = decide (chainBalance bc1.chain tx.sender ≥ tx.amount) :=
          has_sufficient_fst bc1 tx.sender tx.amount hco
        by_cases hbal : chainBalance bc1.chain tx.sender < tx.amount
        · have h1 : (bc1.has_sufficient_balance tx.sender tx.amount).1 = false := by
            rw [hhs]
            simp only [ge_iff_le, decide_eq_false_iff_not, not_le]
            exact hbal
          have h2 : ((bc1.has_sufficient_balance tx.sender tx.amount).2.get_balance
              tx.sender).1 = chainBalance bc1.chain tx.sender := by
            have hch : (bc1.has_sufficient_balance tx.sender tx.amount).2.chain
                = bc1.chain := get_balance_snd_chain bc1 tx.sender
            have hco2 : (bc1.has_sufficient_balance tx.sender tx.amount).2.cacheCoherent :=
              get_balance_snd_coherent bc1 tx.sender hco
            rw [get_balance_fst _ _ hco2, hch]
          simp only [h1, Bool.not_false, if_true, h2, hbal, if_pos]
        · have h1 : (bc1.has_sufficient_balance tx.sender tx.amount).1 = true := by
            rw [hhs]
            simp only [ge_iff_le, decide_eq_true_eq]
            exact not_lt.mp hbal
          have hvalid : tx.is_valid
              = Wallet.verify_signature tx.public_key tx.hash tx.signature :=
            is_valid_eq_verify tx hcb ha hsr
          simp only [h1, Bool.not_true, Bool.false_eq_true, if_false, hvalid,
            hbal, if_false]
          by_cases hv : Wallet.verify_signature tx.public_key tx.hash tx.signature = true
          · simp [hv]
          · rw [Bool.not_eq_true] at hv
            simp [hv]

/-- C1: on any coherent ledger state, `validate_transaction` returns exactly
the result of the seven ordered spec checks — (1) already mined (only
with `check_chain`), (2) duplicate in the mempool, (3) coinbase
submission, (4) non-positive amount, (5) self-send, (6) insufficient
balance via `get_balance`, (7) signature verification against the public
key and the transaction hash — with the first failing check's reason, and
success (`none`) exactly when all seven pass. -/
theorem validate_transaction_ordered (bc : Blockchain) (d : TxDict) (cc : Bool)
    (now : Rat) (hco : bc.cacheCoherent) :
    (bc.validate_transaction d cc now).1 = validateSpec bc d cc now := by
  unfold Blockchain.validate_transaction validateSpec
  rcases htx : d.tx_id with _ | i
  · simp only [htx, optStrTruthy, Bool.and_false, Bool.false_and, Bool.false_eq_true,
      if_false]
    exact validateChecks37_fst bc _ hco
  · have hm := is_mined_fst bc i hco
    have hch : (bc.is_transaction_mined i).2.chain = bc.chain := get_mined_snd_chain bc
    have hpd : (bc.is_transaction_mined i).2.pending_transactions
        = bc.pending_transactions := get_mined_snd_pending bc
    have hco2 : (bc.is_transaction_mined i).2.cacheCoherent :=
      get_mined_snd_coherent bc hco
    simp only [htx, optStrTruthy, optIdIn]
    by_cases hce : (cc && i != "") = true
    · rw [if_pos hce]
      by_cases hmem : (chainMinedIds bc.chain).contains i = true
      · rw [if_pos (show (bc.is_transaction_mined i).1 = true by rw [hm]; exact hmem)]
        rw [if_pos (show (cc && i != "" && (chainMinedIds bc.chain).contains i) = true by
          rw [hce, hmem]; rfl)]
      · rw [Bool.not_eq_true] at hmem
        rw [if_neg (show ¬((bc.is_transaction_mined i).1 = true) by
          rw [hm, hmem]; simp)]
        rw [if_neg (show ¬((cc && i != "" && (chainMinedIds bc.chain).contains i) = true) by
          rw [hmem]; simp)]
        rw [hpd]
        by_cases hp : ((i != "") && bc.pending_transactions.any
            (fun t => t.tx_id == some i)) = true
        · rw [if_pos hp, if_pos hp]
        · rw [if_neg hp, if_neg hp]
          rw [validateChecks37_fst _ _ hco2, hch]
    · rw [Bool.not_eq_true] at hce
      rw [if_neg (show ¬((cc && i != "") = true) by rw [hce]; simp)]
      dsimp only []
      rw [if_neg (show ¬(false = true) by simp)]
      rw [if_neg (show ¬((cc && i != "" && (chainMinedIds bc.chain).contains i) = true) by
        rw [show (cc && i != "") = false from hce]; simp)]
      by_cases hp : ((i != "") && bc.pending_transactions.any
          (fun t => t.tx_id == some i)) = true
      · rw [if_pos hp, if_pos hp]
      · rw [if_neg hp, if_neg hp]
        exact validateChecks37_fst bc _ hco

/-- Witness for C1 on a coherent concrete state: the fresh node state is
coherent and the unsigned over-spending transfer is judged identically by
the implementation and the ordered spec checks. -/
theorem validate_transaction_ordered_witness :
    (Blockchain.init.validate_transaction badTxD true 1).1
      = validateSpec Blockchain.init badTxD true 1 :=
  validate_transaction_ordered Blockchain.init badTxD true 1 ⟨Or.inl rfl, Or.inl rfl⟩

theorem filter_idem {α : Type} (p : α → Bool) (l : List α) :
    (l.filter p).filter p = l.filter p := by
  induction l with
  | nil => rfl
  | cons a t ih =>
    by_cases h : p a = true
    · simp [List.filter_cons, h, ih]
    · simp [List.filter_cons, h, ih]

theorem mine_block_eq (bc : Blockchain) (m : String) (now : Rat) (fuel : Nat) :
    bc.mine_block m now fuel =
      (let bc2 := bc.cleanup_pending_transactions.get_mined_transaction_ids.2
       let ids := bc.cleanup_pending_transactions.get_mined_transaction_ids.1
       let included := (bc2.pending_transactions.filter
           (fun tx => !(optIdIn ids tx.tx_id))).take MAX_TRANSACTIONS_PER_BLOCK
       let block := powLoop bc2.difficulty fuel
         (Block.init bc2.chain.length now
           ((Transaction.create_coinbase m MINING_REWARD now).to_dict :: included)
           bc2.get_latest_block.hash 0)
       (block,
         { bc2 with
           chain := bc2.chain ++ [block],
           pending_transactions := bc2.pending_transactions.filter
             (fun tx => !((included.map TxDict.tx_id).contains tx.tx_id)),
           balance_cache := [], mined_tx_cache := [],
           cache_chain_length := (bc2.chain ++ [block]).length })) := rfl

/-- C4: `mine_block` (for every state with a coherent cache, any fuel, and
in particular an empty mempool) returns a block whose index is the chain
length, whose `previous_hash` is the tip hash, and whose data is the
coinbase for the miner (sender `COINBASE_SYSTEM`, receiver the miner,
amount `MINING_REWARD`) followed by at most
`MAX_TRANSACTIONS_PER_BLOCK` not-already-mined pending transactions in
mempool order; the block is appended to the chain, the included
transactions are removed from the mempool by `tx_id`, and the caches are
invalidated. -/
theorem mine_block_spec (bc : Blockchain) (m : String) (now : Rat) (fuel : Nat)
    (hco : bc.cacheCoherent) :
    (bc.mine_block m now fuel).1.index = bc.chain.length ∧
    (bc.mine_block m now fuel).1.previous_hash = bc.get_latest_block.hash ∧
    (bc.mine_block m now fuel).1.data
      = (Transaction.create_coinbase m MINING_REWARD now).to_dict
          :: (bc.pending_transactions.filter
              (fun tx => !(optIdIn (chainMinedIds bc.chain) tx.tx_id))).take
            MAX_TRANSACTIONS_PER_BLOCK ∧
    ((Transaction.create_coinbase m MINING_REWARD now).to_dict.sender = COINBASE_ADDRESS ∧
      (Transaction.create_coinbase m MINING_REWARD now).to_dict.receiver = m ∧
      (Transaction.create_coinbase m MINING_REWARD now).to_dict.amount = MINING_REWARD) ∧
    (bc.mine_block m now fuel).2.chain = bc.chain ++ [(bc.mine_block m now fuel).1] ∧
    (bc.mine_block m now fuel).2.pending_transactions
      = (bc.pending_transactions.filter
          (fun tx => !(optIdIn (chainMinedIds bc.chain) tx.tx_id))).filter
          (fun tx => !((((bc.pending_transactions.filter
              (fun tx2 => !(optIdIn (chainMinedIds bc.chain) tx2.tx_id))).take
              MAX_TRANSACTIONS_PER_BLOCK).map TxDict.tx_id).contains tx.tx_id)) ∧
    (bc.mine_block m now fuel).2.balance_cache = [] ∧
    (bc.mine_block m now fuel).2.mined_tx_cache = [] ∧
    (bc.mine_block m now fuel).2.cache_chain_length = bc.chain.length + 1 := by
  have hco1 : bc.cleanup_pending_transactions.cacheCoherent :=
    get_mined_snd_coherent bc hco
  have hch1 : bc.cleanup_pending_transactions.chain = bc.chain := cleanup_chain bc
  have hpend1 : bc.cleanup_pending_transactions.pending_transactions
      = bc.pending_transactions.filter
          (fun tx => !(optIdIn (chainMinedIds bc.chain) tx.tx_id)) := by
    show bc.get_mined_transaction_ids.2.pending_transactions.filter
        (fun tx => !(optIdIn bc.get_mined_transaction_ids.1 tx.tx_id)) = _
    rw [get_mined_snd_pending, get_mined_fst bc hco]
  have hids : bc.cleanup_pending_transactions.get_mined_transaction_ids.1
      = chainMinedIds bc.chain := by
    rw [get_mined_fst _ hco1, hch1]
  have hch2 : bc.cleanup_pending_transactions.get_mined_transaction_ids.2.chain
      = bc.chain := by
    rw [get_mined_snd_chain, hch1]
  have hpend2 :
      bc.cleanup_pending_transactions.get_mined_transaction_ids.2.pending_transactions
      = bc.pending_transactions.filter
          (fun tx => !(optIdIn (chainMinedIds bc.chain) tx.tx_id)) := by
    rw [get_mined_snd_pending, hpend1]
  have hvp :
      bc.cleanup_pending_transactions.get_mined_transaction_ids.2.pending_transactions.filter
        (fun tx => !(optIdIn bc.cleanup_pending_transactions.get_mined_transaction_ids.1
          tx.tx_id))
      = bc.pending_transactions.filter
          (fun tx => !(optIdIn (chainMinedIds bc.chain) tx.tx_id)) := by
    rw [hids, hpend2, filter_idem]
  refine ⟨?_, ?_, ?_, ⟨rfl, rfl, rfl⟩, ?_, ?_, rfl, rfl, ?_⟩
  · rw [mine_block_eq]
    dsimp only []
    rw [powLoop_index]
    show bc.cleanup_pending_transactions.get_mined_transaction_ids.2.chain.length
      = bc.chain.length
    rw [hch2]
  · rw [mine_block_eq]
    dsimp only []
    rw [powLoop_previous_hash]
    show bc.cleanup_pending_transactions.get_mined_transaction_ids.2.get_latest_block.hash
      = bc.get_latest_block.hash
    unfold Blockchain.get_latest_block
    rw [hch2]
  · rw [mine_block_eq]
    dsimp only []
    rw [powLoop_data]
    show (Transaction.create_coinbase m MINING_REWARD now).to_dict
        :: (bc.cleanup_pending_transactions.get_mined_transaction_ids.2.pending_transactions.filter
          (fun tx => !(optIdIn bc.cleanup_pending_transactions.get_mined_transaction_ids.1
            tx.tx_id))).take MAX_TRANSACTIONS_PER_BLOCK
      = _
    rw [hvp]
  · rw [mine_block_eq]
    dsimp only []
    rw [hch2]
  · rw [mine_block_eq]
    dsimp only []
    rw [hvp, hpend2]
  · rw [mine_block_eq]
    dsimp only []
    rw [List.length_append, hch2]
    rfl

/-- Witness for C4: mining on the fresh state appends exactly the mined
block to the genesis chain. -/
theorem mine_block_spec_witness :
    (Blockchain.init.mine_block "m" 1 5).2.chain
      = Blockchain.init.chain ++ [(Blockchain.init.mine_block "m" 1 5).1] :=
  (mine_block_spec Blockchain.init "m" 1 5 ⟨Or.inl rfl, Or.inl rfl⟩).2.2.2.2.1
